import Mathlib

/-!
# korifi-go-client: credential extraction and the authenticating transport

A shallow embedding of `src/korifi/korifi_client.go`.

* A byte is a `Fin 256`. The value a call of `getPEMCertificate` returns is
  given on the bytes the slices hold (lists of bytes); what the call does to
  memory is given on slices with backing arrays in a `ByteMemory`, where
  `append` writes into spare capacity.
* A Go `error` is a value of `GoError`; a Go `(T, error)` result whose two
  halves exclude each other is an `Except GoError T`.
* A Go map that the code ranges over (`config.AuthInfos`) is the list of its
  entries in the order one `range` visits them, the keys being pairwise
  distinct; results are stated for every such order.
* Memory that the code mutates through a reference (the header map of a
  request) lives in an explicit `Heap`, and a request holds the address of its
  header map.
-/

namespace Korifi

/-! ## Errors -/

/-- A Go `error` value. `errorString` is what `fmt.Errorf` builds from a format
without `%w`, `wrapError` what it builds with `%w`, and `foreign` is an error
made by a library the program calls (client-go, net/http, encoding/json). -/
inductive GoError where
  | errorString (msg : String)
  | wrapError (msg : String) (err : GoError)
  | foreign (msg : String)
  deriving DecidableEq, Repr

/-- The method `Error()` of an error value. -/
def GoError.Error : GoError → String
  | .errorString msg => msg
  | .wrapError msg _ => msg
  | .foreign msg => msg

deriving instance DecidableEq for Except

/-! ## encoding/base64 -/

/-- One byte of a Go `[]byte`. -/
abbrev Byte := Fin 256

/-- The alphabet of `base64.StdEncoding`. -/
def encodeStd : List Char :=
  "ABCDEFGHIJKLMNOPQRSTUVWXYZabcdefghijklmnopqrstuvwxyz0123456789+/".toList

/-- The lookup `enc.encode[i]`; every index the encoder forms is masked with
`0x3F`. -/
def encodeChar (i : Nat) : Char := encodeStd.getD i '='

/-- The padding character of `base64.StdEncoding`. -/
def StdPadding : Char := '='

/-- The method `(*Encoding).Encode` for `StdEncoding`: full groups of three bytes
give four characters each, and a last group of one or two bytes is
padded. -/
def StdEncoding.Encode : List Byte → List Char
  | b0 :: b1 :: b2 :: rest =>
    let val := b0.val <<< 16 ||| b1.val <<< 8 ||| b2.val
    encodeChar (val >>> 18 &&& 0x3F) :: encodeChar (val >>> 12 &&& 0x3F) ::
      encodeChar (val >>> 6 &&& 0x3F) :: encodeChar (val &&& 0x3F) ::
      StdEncoding.Encode rest
  | [b0, b1] =>
    let val := b0.val <<< 16 ||| b1.val <<< 8
    [encodeChar (val >>> 18 &&& 0x3F), encodeChar (val >>> 12 &&& 0x3F),
      encodeChar (val >>> 6 &&& 0x3F), StdPadding]
  | [b0] =>
    let val := b0.val <<< 16
    [encodeChar (val >>> 18 &&& 0x3F), encodeChar (val >>> 12 &&& 0x3F),
      StdPadding, StdPadding]
  | [] => []

/-- The call `base64.StdEncoding.EncodeToString(src)`. -/
def StdEncoding.EncodeToString (src : List Byte) : String :=
  String.mk (StdEncoding.Encode src)

/-! ## The standard base64 encoding, as RFC 4648 words it

Section 4 of the RFC: the input is read as a string of bits, eight an octet, the
most significant first; the string is cut from the left into groups of six
bits, each of which indexes the alphabet of Table 1; zero bits are added on the
right of a last group of fewer than six; the output is padded with `=` to a
multiple of four characters. These definitions follow the RFC and not the Go
encoder above, which is compared with them below. -/

namespace RFC4648

/-- The eight bits of an octet, the most significant first. -/
def octetBits (b : Byte) : List Bool :=
  [b.val.testBit 7, b.val.testBit 6, b.val.testBit 5, b.val.testBit 4,
    b.val.testBit 3, b.val.testBit 2, b.val.testBit 1, b.val.testBit 0]

/-- The number a group of bits stands for, the most significant first. -/
def bitsValue (bits : List Bool) : Nat := bits.foldl (fun n b => 2 * n + b.toNat) 0

/-- The bit string cut into 6-bit groups from the left; zero bits are added
on the right of a last group of fewer than six. -/
def sextets : List Bool → List Nat
  | [] => []
  | a :: b :: c :: d :: e :: f :: rest => bitsValue [a, b, c, d, e, f] :: sextets rest
  | [a, b, c, d, e] => [bitsValue [a, b, c, d, e, false]]
  | [a, b, c, d] => [bitsValue [a, b, c, d, false, false]]
  | [a, b, c] => [bitsValue [a, b, c, false, false, false]]
  | [a, b] => [bitsValue [a, b, false, false, false, false]]
  | [a] => [bitsValue [a, false, false, false, false, false]]

/-- Table 1, the base 64 alphabet: 0 to 25 are `A` to `Z`, 26 to 51 are `a` to
`z`, 52 to 61 are `0` to `9`, 62 is `+` and 63 is `/`. -/
def alphabet (v : Nat) : Char :=
  if v < 26 then Char.ofNat (65 + v)
  else if v < 52 then Char.ofNat (97 + (v - 26))
  else if v < 62 then Char.ofNat (48 + (v - 52))
  else if v = 62 then '+' else '/'

/-- The characters of the encoding before padding. -/
def encodeChars (src : List Byte) : List Char :=
  (sextets (src.flatMap octetBits)).map alphabet

/-- The base 64 encoding with padding. -/
def base64 (src : List Byte) : String :=
  let chars := encodeChars src
  String.mk (chars ++ List.replicate ((4 - chars.length % 4) % 4) '=')

end RFC4648

/-! ## The configuration (k8s.io/client-go/tools/clientcmd/api) -/

/-- The two fields of `api.AuthInfo` that the program reads. -/
structure AuthInfo where
  ClientCertificateData : List Byte
  ClientKeyData : List Byte
  deriving DecidableEq, Repr

/-- The field of `api.Config` that the program reads: `AuthInfos`, a
`map[string]*AuthInfo`, as the list of its entries in the order `range` visits
them. The loader never stores a nil `*AuthInfo`, so an entry is a value. -/
structure Config where
  AuthInfos : List (String × AuthInfo)
  deriving DecidableEq, Repr

/-- The keys of the map are pairwise distinct. -/
def Config.WellFormed (config : Config) : Prop :=
  (config.AuthInfos.map Prod.fst).Nodup

instance (config : Config) : Decidable config.WellFormed := by
  unfold Config.WellFormed; infer_instance

/-- The `for username, authInfo := range config.AuthInfos` loop of
`getPEMCertificate`: `dataCert` and `keyCert` start nil, and the first visited
entry whose key is `"kind-korifi"` assigns both and breaks. -/
def getPEMCertificate.rangeLoop : List (String × AuthInfo) → List Byte × List Byte
  | [] => ([], [])
  | (username, authInfo) :: rest =>
    if username == "kind-korifi" then
      (authInfo.ClientCertificateData, authInfo.ClientKeyData)
    else
      getPEMCertificate.rangeLoop rest

/-- The error `getPEMCertificate` returns. -/
def errCertificateData : GoError :=
  .errorString "could not find certificate data for kind-korifi"

/-- Extract client certificate and key for authentication: the value one call
returns, as a function of the bytes the entries hold when it is called. The Go
function returns the empty string beside its error. What the call writes to
memory, `append(dataCert, keyCert...)` on slices with their backing arrays, is
in `getPEMCertificate.run` below, and `run_result` relates the two. -/
def getPEMCertificate (config : Config) : Except GoError String :=
  let (dataCert, keyCert) := getPEMCertificate.rangeLoop config.AuthInfos
  if dataCert.length == 0 || keyCert.length == 0 then
    .error (.errorString "could not find certificate data for kind-korifi")
  else
    .ok (StdEncoding.EncodeToString (dataCert ++ keyCert))

/-! ## Byte slices in memory -/

/-- The backing arrays of byte slices allocated so far; an array's address is
its position. -/
abbrev ByteMemory := List (List Byte)

/-- A Go `[]byte`: the backing array, the offset of the first element in it,
the length and the capacity. The nil slice has length and capacity 0. -/
structure Slice where
  array : Nat
  off : Nat
  len : Nat
  cap : Nat
  deriving DecidableEq, Repr

/-- The nil slice. -/
def Slice.nil : Slice := { array := 0, off := 0, len := 0, cap := 0 }

/-- The bytes a slice holds. -/
def Slice.bytes (mem : ByteMemory) (s : Slice) : List Byte :=
  ((mem.getD s.array []).drop s.off).take s.len

/-- A slice lies within its backing array. -/
def Slice.Valid (mem : ByteMemory) (s : Slice) : Prop :=
  s.len ≤ s.cap ∧ s.off + s.cap ≤ (mem.getD s.array []).length

instance (mem : ByteMemory) (s : Slice) : Decidable (s.Valid mem) := by
  unfold Slice.Valid; infer_instance

/-- The builtin `append(s, x...)` on byte slices: with room in the capacity of
`s` the bytes of `x` are written into the backing array of `s` after its last
element; otherwise a new array is allocated for the bytes of both (the
capacity Go gives the new array may be larger; nothing reads it here). The
bytes of `x` are read before any is written, as `memmove` does. -/
def appendBytes (mem : ByteMemory) (s x : Slice) : Slice × ByteMemory :=
  let xs := x.bytes mem
  if s.len + x.len ≤ s.cap then
    let arr := mem.getD s.array []
    ({ s with len := s.len + x.len },
      mem.set s.array (arr.take (s.off + s.len) ++ xs ++ arr.drop (s.off + s.len + x.len)))
  else
    ({ array := mem.length, off := 0, len := s.len + x.len, cap := s.len + x.len },
      mem ++ [s.bytes mem ++ xs])

/-- The call `append(s, x...)` writes into no byte of `x`: it allocates, or `x`
is in another array, or `x` lies before or after the bytes written. -/
def Slice.appendSpares (s x : Slice) : Prop :=
  s.cap < s.len + x.len ∨ s.array ≠ x.array ∨ x.off + x.len ≤ s.off + s.len ∨
    s.off + s.len + x.len ≤ x.off

instance (s x : Slice) : Decidable (s.appendSpares x) := by
  unfold Slice.appendSpares; infer_instance

/-- The two fields of `api.AuthInfo` that the program reads, as the slices
they are. -/
structure StoredAuthInfo where
  ClientCertificateData : Slice
  ClientKeyData : Slice
  deriving DecidableEq, Repr

/-- The map `AuthInfos` of an `api.Config` whose byte slices are in memory, in
the order `range` visits it. -/
structure StoredConfig where
  AuthInfos : List (String × StoredAuthInfo)
  deriving DecidableEq, Repr

/-- The keys of the map are pairwise distinct. -/
def StoredConfig.WellFormed (config : StoredConfig) : Prop :=
  (config.AuthInfos.map Prod.fst).Nodup

instance (config : StoredConfig) : Decidable config.WellFormed := by
  unfold StoredConfig.WellFormed; infer_instance

/-- The bytes an entry holds. -/
def StoredAuthInfo.load (mem : ByteMemory) (a : StoredAuthInfo) : AuthInfo :=
  { ClientCertificateData := a.ClientCertificateData.bytes mem,
    ClientKeyData := a.ClientKeyData.bytes mem }

/-- The bytes a configuration holds. -/
def StoredConfig.load (mem : ByteMemory) (config : StoredConfig) : Config :=
  { AuthInfos := config.AuthInfos.map fun p => (p.1, p.2.load mem) }

/-- The `for username, authInfo := range config.AuthInfos` loop of
`getPEMCertificate` on slices: `dataCert` and `keyCert` start nil, and the
first visited entry whose key is `"kind-korifi"` assigns both and breaks. -/
def getPEMCertificate.rangeLoopSlices : List (String × StoredAuthInfo) → Slice × Slice
  | [] => (Slice.nil, Slice.nil)
  | (username, authInfo) :: rest =>
    if username == "kind-korifi" then
      (authInfo.ClientCertificateData, authInfo.ClientKeyData)
    else
      getPEMCertificate.rangeLoopSlices rest

/-- One call of `getPEMCertificate` on a configuration in memory: the result,
and the memory the call leaves. -/
def getPEMCertificate.run (mem : ByteMemory) (config : StoredConfig) :
    Except GoError String × ByteMemory :=
  let (dataCert, keyCert) := getPEMCertificate.rangeLoopSlices config.AuthInfos
  if dataCert.len == 0 || keyCert.len == 0 then
    (.error (.errorString "could not find certificate data for kind-korifi"), mem)
  else
    let (joined, mem) := appendBytes mem dataCert keyCert
    (.ok (StdEncoding.EncodeToString (joined.bytes mem)), mem)

/-! ## Loading the configuration -/

/-- What `getKubeConfig` calls outside the program: `homedir.HomeDir()`,
`filepath.Join` and `clientcmd.LoadFromFile` (which reads the file system). -/
structure Env where
  HomeDir : String
  Join : List String → String
  LoadFromFile : String → Except GoError Config

/-- Load Kubernetes configuration from the kubeconfig file. -/
def getKubeConfig (env : Env) : Except GoError Config :=
  let home := env.HomeDir
  let kubeconfig := env.Join [home, ".kube", "config"]
  match env.LoadFromFile kubeconfig with
  | .error err => .error (.errorString ("error loading kubeconfig: " ++ err.Error))
  | .ok config => .ok config

/-! ## net/http: headers, requests and memory -/

/-- The bytes `textproto` accepts in a header field name (the `token`
characters of RFC 7230). -/
def validHeaderFieldByte (c : Char) : Bool :=
  c.isAlphanum ||
    [33, 35, 36, 37, 38, 39, 42, 43, 45, 46, 94, 95, 96, 124, 126].contains c.toNat

/-- The rewriting loop of `textproto.canonicalMIMEHeaderKey`: the first letter
and every letter after a hyphen in upper case, every other letter in lower
case. -/
def canonicalLetters : Bool → List Char → List Char
  | _, [] => []
  | upper, c :: cs =>
    let c := if upper && c.isLower then c.toUpper
      else if !upper && c.isUpper then c.toLower else c
    c :: canonicalLetters (c == '-') cs

/-- The function `textproto.CanonicalMIMEHeaderKey`: a key holding a byte that
is not valid in a field name is returned unchanged. -/
def CanonicalMIMEHeaderKey (s : String) : String :=
  if s.toList.all validHeaderFieldByte then String.mk (canonicalLetters true s.toList) else s

/-- The content of an `http.Header`, a `map[string][]string`: the values under
each key, `none` for a key that is not in the map. -/
abbrev Header := String → Option (List String)

/-- The method `Header.Set`: `h[CanonicalMIMEHeaderKey(key)] = []string{value}`. -/
def Header.Set (h : Header) (key value : String) : Header :=
  fun k => if k = CanonicalMIMEHeaderKey key then some [value] else h k

/-- The address of a header map. -/
abbrev Addr := Nat

/-- The header maps allocated so far; a map's address is its position. -/
abbrev Heap := List Header

/-- The content of the map at an address. -/
def Heap.read (heap : Heap) (a : Addr) : Header := heap.getD a (fun _ => none)

/-- Replace the content of the map at an address. -/
def Heap.write (heap : Heap) (a : Addr) (h : Header) : Heap := heap.set a h

/-- Allocate a new map with the given content; its address is fresh. -/
def Heap.alloc (heap : Heap) (h : Header) : Addr × Heap := (heap.length, heap ++ [h])

/-- A `context.Context`. -/
inductive Context where
  | background
  | derived (id : Nat)
  deriving DecidableEq, Repr

/-- The fields of `http.Request` a round trip looks at. `Header` is a
reference to a header map (initialised, as the `RoundTripper` contract
requires and as `http.Client` ensures before it calls its transport), `Body` a
reference to the request's reader, `ctx` the unexported, possibly nil,
context. -/
structure Request where
  Method : String
  URL : String
  Header : Addr
  Body : Nat
  ctx : Option Context
  deriving DecidableEq, Repr

/-- The method `Request.Context`: the request's context, the background
context when none was set. -/
def Request.Context (r : Request) : Context :=
  match r.ctx with
  | some ctx => ctx
  | none => .background

/-- The method `Header.Clone`: a new map with the same keys and a copy of
the values under each. -/
def Header.Clone (a : Addr) (heap : Heap) : Addr × Heap := heap.alloc (heap.read a)

/-- The method `Request.Clone`: a copy of the request with the given context
and a deep copy of its header map; the body reader is shared. -/
def Request.Clone (r : Request) (ctx : Korifi.Context) (heap : Heap) : Request × Heap :=
  let (header, heap) := Korifi.Header.Clone r.Header heap
  ({ r with ctx := some ctx, Header := header }, heap)

/-! ## encoding/json -/

/-- A JSON value. -/
inductive Json where
  | null
  | bool (b : Bool)
  | number (literal : String)
  | string (s : String)
  | array (elems : List Json)
  | object (members : List (String × Json))

/-- An `http.Response`. `Body` is what a JSON decoder reads off the response
body: the first JSON value, or the error of reading it. -/
structure Response where
  StatusCode : Int
  Status : String
  Body : Except GoError Json

/-- Define InfoV3Response struct based on API response fields. -/
structure InfoV3Response where
  Name : String
  Version : String
  deriving DecidableEq, Repr

/-- The two fields of `InfoV3Response`, by their `json` tags. -/
inductive InfoField where
  | name
  | version
  deriving DecidableEq, Repr

/-- The tag of a field. -/
def InfoField.tag : InfoField → String
  | .name => "name"
  | .version => "version"

/-- The field an object key decodes into: the field whose tag is the key,
else the first field whose tag matches it under `fold`, the case-insensitive
comparison of `encoding/json`. -/
def InfoField.ofKey (fold : String → String → Bool) (key : String) : Option InfoField :=
  if key = "name" then some .name
  else if key = "version" then some .version
  else if fold key "name" then some .name
  else if fold key "version" then some .version
  else none

/-- Assign a string to a field. -/
def InfoV3Response.setField (info : InfoV3Response) : InfoField → String → InfoV3Response
  | .name, s => { info with Name := s }
  | .version, s => { info with Version := s }

/-- The error `*json.UnmarshalTypeError` for a value that does not fit a string
field, or a top-level value that does not fit the struct. -/
def unmarshalTypeError (value target : String) : GoError :=
  .foreign ("json: cannot unmarshal " ++ value ++ " into Go " ++ target)

/-- The target a mismatch on a field names: the struct, the key and the
type of the field, as in "struct field InfoV3Response.name of type string". -/
def fieldTarget (f : InfoField) : String :=
  "struct field InfoV3Response." ++ f.tag ++ " of type string"

/-- Decoding the members of an object, in order, into the struct: a string
is stored, null has no effect, any other value is skipped and the earliest
such mismatch is kept as the error; a key for no field is ignored. -/
def unmarshalMembers (fold : String → String → Bool) :
    List (String × Json) → InfoV3Response × Option GoError → InfoV3Response × Option GoError
  | [], acc => acc
  | (key, value) :: rest, (info, saved) =>
    match InfoField.ofKey fold key with
    | none => unmarshalMembers fold rest (info, saved)
    | some f =>
      match value with
      | .string s => unmarshalMembers fold rest (info.setField f s, saved)
      | .null => unmarshalMembers fold rest (info, saved)
      | .bool _ => unmarshalMembers fold rest
          (info, saved.orElse fun _ => some (unmarshalTypeError "bool" (fieldTarget f)))
      | .number _ => unmarshalMembers fold rest
          (info, saved.orElse fun _ => some (unmarshalTypeError "number" (fieldTarget f)))
      | .array _ => unmarshalMembers fold rest
          (info, saved.orElse fun _ => some (unmarshalTypeError "array" (fieldTarget f)))
      | .object _ => unmarshalMembers fold rest
          (info, saved.orElse fun _ => some (unmarshalTypeError "object" (fieldTarget f)))

/-- The call `json.NewDecoder(resp.Body).Decode(&info)` on a zero `info`: the
error, or the struct the caller goes on to use. -/
def Decode (fold : String → String → Bool) (body : Except GoError Json) :
    Except GoError InfoV3Response :=
  match body with
  | .error err => .error err
  | .ok .null => .ok { Name := "", Version := "" }
  | .ok (.object members) =>
    match unmarshalMembers fold members ({ Name := "", Version := "" }, none) with
    | (info, none) => .ok info
    | (_, some err) => .error err
  | .ok (.bool _) => .error (unmarshalTypeError "bool" "value of type korifi.InfoV3Response")
  | .ok (.number _) => .error (unmarshalTypeError "number" "value of type korifi.InfoV3Response")
  | .ok (.string _) => .error (unmarshalTypeError "string" "value of type korifi.InfoV3Response")
  | .ok (.array _) => .error (unmarshalTypeError "array" "value of type korifi.InfoV3Response")

/-! ## The authenticating transport -/

/-- The interface `http.RoundTripper`: a round trip takes a request and the
memory, and gives the pair `(*Response, error)`, either of which may be nil,
and the memory it leaves. -/
class RoundTripper (β : Type) where
  RoundTrip : β → Request → Heap → (Option Response × Option GoError) × Heap

/-- One call of an inner transport: the request passed to it and the memory at
that moment. -/
structure Call where
  req : Request
  heap : Heap

/-- The memory, and the calls made to inner transports so far, oldest
first. -/
structure World where
  heap : Heap
  calls : List Call

/-- Calling the `RoundTrip` method of a transport: the call is recorded and the
transport runs on the memory. -/
def World.roundTrip {β : Type} [RoundTripper β] (base : β) (req : Request) (w : World) :
    (Option Response × Option GoError) × World :=
  let (res, heap) := RoundTripper.RoundTrip base req w.heap
  (res, { heap := heap, calls := w.calls ++ [{ req := req, heap := w.heap }] })

/-- Custom RoundTripper for injecting Authorization headers. -/
structure authHeaderRoundTripper (β : Type) where
  certPEM : String
  base : β

/-- The method `(*authHeaderRoundTripper).RoundTrip`: clone the request, set the
clone's `Authorization` header, hand the clone to the inner transport and
return what it returns. -/
def authHeaderRoundTripper.RoundTrip {β : Type} [RoundTripper β]
    (t : authHeaderRoundTripper β) (req : Request) (w : World) :
    (Option Response × Option GoError) × World :=
  let (reqClone, heap) := req.Clone req.Context w.heap
  let heap := heap.write reqClone.Header
    ((heap.read reqClone.Header).Set "Authorization" ("ClientCert " ++ t.certPEM))
  World.roundTrip t.base reqClone { w with heap := heap }

/-- An inner transport that leaves as it was every header map that is
allocated when it is called, other than that of the request it is handed; it
may allocate maps of its own. -/
def RoundTripper.KeepsOthers {β : Type} [RoundTripper β] (base : β) : Prop :=
  ∀ (req : Request) (heap : Heap) (a : Addr), a < heap.length → a ≠ req.Header →
    (RoundTripper.RoundTrip base req heap).2.read a = heap.read a

/-! ## Client assembly -/

/-- The field of `tls.Config` the program sets. -/
structure TLSConfig where
  InsecureSkipVerify : Bool
  deriving DecidableEq, Repr

/-- The field of `http.Transport` the program sets; `none` is a nil
`*tls.Config`. -/
structure Transport where
  TLSClientConfig : Option TLSConfig
  deriving DecidableEq, Repr

/-- The field of `http.Client` the program sets. -/
structure Client (ρ : Type) where
  Transport : ρ

/-- Create an HTTP client configured to authenticate with Korifi. -/
def GetKorifiHttpClient (env : Env) :
    Except GoError (Client (authHeaderRoundTripper Transport)) :=
  match getKubeConfig env with
  | .error err => .error err
  | .ok kubeConfig =>
    let transport : Transport := { TLSClientConfig := some { InsecureSkipVerify := true } }
    match getPEMCertificate kubeConfig with
    | .error err => .error err
    | .ok certPEM =>
      let roundTripper : authHeaderRoundTripper Transport :=
        { certPEM := certPEM, base := transport }
      .ok { Transport := roundTripper }

/-! ## The info endpoint -/

/-- What a run of `GetInfo` does to the outside: a GET of a URL, or the close of
a response body. -/
inductive Event where
  | get (url : String)
  | closeBody
  deriving DecidableEq, Repr

/-- An `*http.Client` as `GetInfo` uses it: its method `Get`, over the state
`σ` of whatever the client talks to. With a nil error the response is not
nil. -/
structure HTTPClient (σ : Type) where
  Get : String → σ → Except GoError Response × σ

/-- The state the client acts on, and the events so far, oldest first. -/
structure Traffic (σ : Type) where
  state : σ
  events : List Event

/-- Calling `httpClient.Get(url)`: the call is recorded. -/
def HTTPClient.callGet {σ : Type} (httpClient : HTTPClient σ) (url : String) (w : Traffic σ) :
    Except GoError Response × Traffic σ :=
  let (res, state) := httpClient.Get url w.state
  (res, { state := state, events := w.events ++ [.get url] })

/-- Calling `resp.Body.Close()`. -/
def Traffic.closeBody {σ : Type} (w : Traffic σ) : Traffic σ :=
  { w with events := w.events ++ [.closeBody] }

/-- Fetch information from the Korifi `/v3/info` endpoint. The deferred
`resp.Body.Close()` runs on each return after the response was obtained. -/
def GetInfo {σ : Type} (fold : String → String → Bool) (httpClient : HTTPClient σ)
    (w : Traffic σ) : Except GoError InfoV3Response × Traffic σ :=
  match httpClient.callGet "https://localhost/v3/info" w with
  | (.error err, w) => (.error err, w)
  | (.ok resp, w) =>
    if resp.StatusCode != 200 then
      (.error (.errorString ("request failed with status " ++ toString resp.StatusCode ++ ": "
        ++ resp.Status)), w.closeBody)
    else
      match Decode fold resp.Body with
      | .error err =>
        (.error (.wrapError ("error unmarshalling info: " ++ err.Error) err), w.closeBody)
      | .ok info => (.ok info, w.closeBody)

/-! ## A transport to run the round trip on -/

/-- An inner transport that wipes the header map of the request it is
handed, allocates a header map of its own and answers with a fixed pair. -/
structure wipingTransport where
  answer : Option Response × Option GoError

instance : RoundTripper wipingTransport where
  RoundTrip base req heap :=
    (base.answer, heap.write req.Header (fun _ => none) ++ [fun _ => some ["kept"]])

/-- An inner transport that holds a reference to a header map and empties
that map on every round trip. -/
structure meddlingTransport where
  target : Addr

instance : RoundTripper meddlingTransport where
  RoundTrip base _ heap := ((none, none), heap.write base.target (fun _ => none))

/-- A request with two `Accept` values and a stale `Authorization` in its
header map, which is the only map in memory. -/
def sampleRequest : Request :=
  { Method := "GET", URL := "https://localhost/v3/info", Header := 0, Body := 0, ctx := none }

/-- The header map of `sampleRequest`. -/
def sampleHeader : Header := fun k =>
  if k = "Accept" then some ["text/plain", "application/json"]
  else if k = "Authorization" then some ["Bearer stale", "Bearer older"]
  else none

/-- The memory holding `sampleHeader`, before any call. -/
def sampleWorld : World := { heap := [sampleHeader], calls := [] }

/-! ## Configurations in memory to run the extractor on -/

/-- One array of four bytes. -/
def sharedMemory : ByteMemory := [[1, 2, 3, 4]]

/-- An entry whose certificate is the first two bytes of the array, with
capacity four, and whose key is its second and third byte. -/
def sharedConfig : StoredConfig :=
  { AuthInfos := [("kind-korifi",
      { ClientCertificateData := { array := 0, off := 0, len := 2, cap := 4 },
        ClientKeyData := { array := 0, off := 1, len := 2, cap := 3 } })] }

/-- Two arrays: one of three bytes, one of one byte. -/
def separateMemory : ByteMemory := [[0, 9, 9], [4]]

/-- An entry whose certificate is the first byte of the first array, with
capacity three, and whose key is the second array. -/
def separateEntry : StoredAuthInfo :=
  { ClientCertificateData := { array := 0, off := 0, len := 1, cap := 3 },
    ClientKeyData := { array := 1, off := 0, len := 1, cap := 1 } }

/-- The entry of `separateEntry` between two others. -/
def separateConfig : StoredConfig :=
  { AuthInfos := [("a", ⟨Slice.nil, Slice.nil⟩), ("kind-korifi", separateEntry),
      ("b", ⟨Slice.nil, Slice.nil⟩)] }

/-- Another enumeration of `separateConfig`. -/
def separateConfigReordered : StoredConfig :=
  { AuthInfos := [("b", ⟨Slice.nil, Slice.nil⟩), ("kind-korifi", separateEntry),
      ("a", ⟨Slice.nil, Slice.nil⟩)] }

/-! ## Clients and environments to run the program on -/

/-- A client whose every GET yields the given response. -/
def fixedClient (resp : Response) : HTTPClient Unit :=
  { Get := fun _ state => (.ok resp, state) }

/-- An environment whose kubeconfig, at `/home/user/.kube/config`, loads to the
given result; no other file exists. -/
def fixedEnv (loaded : Except GoError Config) : Env :=
  { HomeDir := "/home/user", Join := fun parts => "/".intercalate parts,
    LoadFromFile := fun path =>
      if path = "/home/user/.kube/config" then loaded
      else .error (.foreign ("open " ++ path ++ ": no such file or directory")) }

/-! ## Lemmas on the encoder -/

/-- The encoder on the test vectors of RFC 4648, section 10 ("", "f", "fo",
"foo", "foob", "fooba", "foobar"), and on bytes that reach the last two
characters of the alphabet. -/
theorem EncodeToString_vectors :
    StdEncoding.EncodeToString [] = "" ∧
    StdEncoding.EncodeToString [102] = "Zg==" ∧
    StdEncoding.EncodeToString [102, 111] = "Zm8=" ∧
    StdEncoding.EncodeToString [102, 111, 111] = "Zm9v" ∧
    StdEncoding.EncodeToString [102, 111, 111, 98] = "Zm9vYg==" ∧
    StdEncoding.EncodeToString [102, 111, 111, 98, 97] = "Zm9vYmE=" ∧
    StdEncoding.EncodeToString [102, 111, 111, 98, 97, 114] = "Zm9vYmFy" ∧
    StdEncoding.EncodeToString [251, 255, 254] = "+//+" := by
  decide

/-- The encoder gives four characters for every group of three bytes, the
last group padded. -/
theorem Encode_length (src : List Byte) :
    (StdEncoding.Encode src).length = 4 * ((src.length + 2) / 3) := by
  induction src using StdEncoding.Encode.induct with
  | case1 b0 b1 b2 rest ih =>
    simp only [StdEncoding.Encode, List.length_cons, ih]
    omega
  | case2 b0 b1 => simp [StdEncoding.Encode]
  | case3 b0 => simp [StdEncoding.Encode]
  | case4 => simp [StdEncoding.Encode]

/-- The Go alphabet is Table 1 of the RFC. -/
theorem encodeChar_eq_alphabet (v : Nat) (h : v < 64) : encodeChar v = RFC4648.alphabet v := by
  interval_cases v <;> decide

/-- The 24-bit value the encoder forms of three bytes. -/
theorem val_three (b0 b1 b2 : Nat) (h1 : b1 < 256) (h2 : b2 < 256) :
    b0 <<< 16 ||| b1 <<< 8 ||| b2 = b0 * 65536 + b1 * 256 + b2 := by
  have e1 : b1 <<< 8 ||| b2 = b1 * 256 + b2 := by
    rw [Nat.shiftLeft_eq, Nat.mul_comm b1]
    exact (Nat.mul_add_lt_is_or (i := 8) (by simpa using h2) b1).symm
  rw [Nat.lor_assoc, e1, Nat.shiftLeft_eq, Nat.mul_comm b0]
  have : b1 * 256 + b2 < 2 ^ 16 := by norm_num; omega
  rw [← Nat.mul_add_lt_is_or this b0]
  norm_num; omega

theorem val_two (b0 b1 : Nat) (h1 : b1 < 256) :
    b0 <<< 16 ||| b1 <<< 8 = b0 * 65536 + b1 * 256 := by
  have h := val_three b0 b1 0 h1 (by omega)
  rwa [Nat.or_zero, Nat.add_zero] at h

theorem and63 (x : Nat) : x &&& 0x3F = x % 64 :=
  Nat.and_pow_two_sub_one_eq_mod x 6

theorem sextets_group (b0 b1 b2 : Byte) (bits : List Bool) :
    RFC4648.sextets (RFC4648.octetBits b0 ++ (RFC4648.octetBits b1 ++
      (RFC4648.octetBits b2 ++ bits))) =
      b0.val / 4 :: (b0.val % 4 * 16 + b1.val / 16) :: (b1.val % 16 * 4 + b2.val / 64) ::
        b2.val % 64 :: RFC4648.sextets bits := by
  have h0 := b0.isLt
  have h1 := b1.isLt
  have h2 := b2.isLt
  simp only [RFC4648.octetBits, List.cons_append, List.nil_append, RFC4648.sextets,
    RFC4648.bitsValue, List.foldl, Nat.toNat_testBit]
  refine congrArg₂ _ (by omega) (congrArg₂ _ (by omega) (congrArg₂ _ (by omega)
    (congrArg₂ _ (by omega) rfl)))

theorem sextets_two (b0 b1 : Byte) :
    RFC4648.sextets (RFC4648.octetBits b0 ++ RFC4648.octetBits b1) =
      [b0.val / 4, b0.val % 4 * 16 + b1.val / 16, b1.val % 16 * 4] := by
  have h0 := b0.isLt
  have h1 := b1.isLt
  simp only [RFC4648.octetBits, List.cons_append, List.nil_append, RFC4648.sextets,
    RFC4648.bitsValue, List.foldl, Nat.toNat_testBit, Bool.toNat_false]
  refine congrArg₂ _ (by omega) (congrArg₂ _ (by omega) (congrArg₂ _ (by omega) rfl))

theorem sextets_one (b0 : Byte) :
    RFC4648.sextets (RFC4648.octetBits b0) = [b0.val / 4, b0.val % 4 * 16] := by
  have h0 := b0.isLt
  simp only [RFC4648.octetBits, RFC4648.sextets,
    RFC4648.bitsValue, List.foldl, Nat.toNat_testBit, Bool.toNat_false]
  refine congrArg₂ _ (by omega) (congrArg₂ _ (by omega) rfl)

/-- The Go encoder gives the characters of the RFC and its padding. -/
theorem Encode_eq_encodeChars (src : List Byte) :
    StdEncoding.Encode src = RFC4648.encodeChars src ++
      List.replicate ((4 - (RFC4648.encodeChars src).length % 4) % 4) '=' := by
  induction src using StdEncoding.Encode.induct with
  | case1 b0 b1 b2 rest ih =>
    have h0 := b0.isLt
    have h1 := b1.isLt
    have h2 := b2.isLt
    have hgroup : RFC4648.encodeChars (b0 :: b1 :: b2 :: rest) =
        RFC4648.alphabet (b0.val / 4) :: RFC4648.alphabet (b0.val % 4 * 16 + b1.val / 16) ::
          RFC4648.alphabet (b1.val % 16 * 4 + b2.val / 64) ::
          RFC4648.alphabet (b2.val % 64) :: RFC4648.encodeChars rest := by
      simp only [RFC4648.encodeChars, List.flatMap_cons, sextets_group, List.map_cons]
    rw [hgroup, StdEncoding.Encode, ih]
    simp only [val_three b0.val b1.val b2.val h1 h2, and63, Nat.shiftRight_eq_div_pow,
      List.length_cons, List.cons_append]
    have e0 : (b0.val * 65536 + b1.val * 256 + b2.val) / 2 ^ 18 % 64 = b0.val / 4 := by omega
    have e1 : (b0.val * 65536 + b1.val * 256 + b2.val) / 2 ^ 12 % 64 =
        b0.val % 4 * 16 + b1.val / 16 := by omega
    have e2 : (b0.val * 65536 + b1.val * 256 + b2.val) / 2 ^ 6 % 64 =
        b1.val % 16 * 4 + b2.val / 64 := by omega
    have e3 : (b0.val * 65536 + b1.val * 256 + b2.val) % 64 = b2.val % 64 := by omega
    have hpad : (4 - ((RFC4648.encodeChars rest).length + 1 + 1 + 1 + 1) % 4) % 4 =
        (4 - (RFC4648.encodeChars rest).length % 4) % 4 := by omega
    rw [e0, e1, e2, e3, hpad]
    rw [encodeChar_eq_alphabet _ (by omega), encodeChar_eq_alphabet _ (by omega),
      encodeChar_eq_alphabet _ (by omega), encodeChar_eq_alphabet _ (by omega)]
  | case2 b0 b1 =>
    have h0 := b0.isLt
    have h1 := b1.isLt
    have hgroup : RFC4648.encodeChars [b0, b1] =
        [RFC4648.alphabet (b0.val / 4), RFC4648.alphabet (b0.val % 4 * 16 + b1.val / 16),
          RFC4648.alphabet (b1.val % 16 * 4)] := by
      simp only [RFC4648.encodeChars, List.flatMap_cons, List.flatMap_nil, List.append_nil,
        sextets_two, List.map_cons, List.map_nil]
    rw [hgroup, StdEncoding.Encode]
    simp only [val_two b0.val b1.val h1, and63, Nat.shiftRight_eq_div_pow]
    have e0 : (b0.val * 65536 + b1.val * 256) / 2 ^ 18 % 64 = b0.val / 4 := by omega
    have e1 : (b0.val * 65536 + b1.val * 256) / 2 ^ 12 % 64 =
        b0.val % 4 * 16 + b1.val / 16 := by omega
    have e2 : (b0.val * 65536 + b1.val * 256) / 2 ^ 6 % 64 = b1.val % 16 * 4 := by omega
    rw [e0, e1, e2]
    rw [encodeChar_eq_alphabet _ (by omega), encodeChar_eq_alphabet _ (by omega),
      encodeChar_eq_alphabet _ (by omega)]
    simp [StdPadding, List.replicate]
  | case3 b0 =>
    have h0 := b0.isLt
    have hgroup : RFC4648.encodeChars [b0] =
        [RFC4648.alphabet (b0.val / 4), RFC4648.alphabet (b0.val % 4 * 16)] := by
      simp only [RFC4648.encodeChars, List.flatMap_cons, List.flatMap_nil, List.append_nil,
        sextets_one, List.map_cons, List.map_nil]
    rw [hgroup, StdEncoding.Encode]
    simp only [Nat.shiftLeft_eq, and63, Nat.shiftRight_eq_div_pow]
    have e0 : b0.val * 2 ^ 16 / 2 ^ 18 % 64 = b0.val / 4 := by omega
    have e1 : b0.val * 2 ^ 16 / 2 ^ 12 % 64 = b0.val % 4 * 16 := by omega
    rw [e0, e1]
    rw [encodeChar_eq_alphabet _ (by omega), encodeChar_eq_alphabet _ (by omega)]
    simp [StdPadding, List.replicate]
  | case4 => rfl

/-- The Go encoder computes the base64 encoding of RFC 4648. -/
theorem EncodeToString_eq_base64 (src : List Byte) :
    StdEncoding.EncodeToString src = RFC4648.base64 src := by
  unfold StdEncoding.EncodeToString RFC4648.base64
  rw [Encode_eq_encodeChars]

/-! ## Lemmas on the range loop -/

theorem rangeLoop_of_not_mem (l : List (String × AuthInfo))
    (h : ∀ a, ("kind-korifi", a) ∉ l) : getPEMCertificate.rangeLoop l = ([], []) := by
  induction l with
  | nil => rfl
  | cons p rest ih =>
    obtain ⟨username, authInfo⟩ := p
    have hne : username ≠ "kind-korifi" := by
      intro heq
      exact h authInfo (by simp [heq])
    have hrest : ∀ a, ("kind-korifi", a) ∉ rest := fun a ha =>
      h a (List.mem_cons_of_mem _ ha)
    simp [getPEMCertificate.rangeLoop, hne, ih hrest]

theorem rangeLoop_of_mem (l : List (String × AuthInfo)) (a : AuthInfo)
    (hnd : (l.map Prod.fst).Nodup) (h : ("kind-korifi", a) ∈ l) :
    getPEMCertificate.rangeLoop l = (a.ClientCertificateData, a.ClientKeyData) := by
  induction l with
  | nil => simp at h
  | cons p rest ih =>
    obtain ⟨username, authInfo⟩ := p
    rw [List.map_cons, List.nodup_cons] at hnd
    by_cases hname : username = "kind-korifi"
    · rcases List.mem_cons.mp h with heq | hmem
      · have hinfo : a = authInfo := (Prod.mk.inj heq).2
        simp [getPEMCertificate.rangeLoop, hname, hinfo]
      · exfalso
        apply hnd.1
        rw [hname]
        exact List.mem_map.mpr ⟨("kind-korifi", a), hmem, rfl⟩
    · rcases List.mem_cons.mp h with heq | hmem
      · exact absurd (Prod.mk.inj heq).1.symm hname
      · simp [getPEMCertificate.rangeLoop, hname, ih hnd.2 hmem]

/-! ## Lemmas on byte slices -/

/-- An element of a window of a list. -/
theorem getElem?_window {α : Type} (arr : List α) (off len i : Nat) :
    ((arr.drop off).take len)[i]? = if i < len then arr[off + i]? else none := by
  rw [List.getElem?_take, List.getElem?_drop]

/-- An element of a list after a write of `xs` at position `p`. -/
theorem getElem?_splice {α : Type} (arr xs : List α) (p n i : Nat) (hn : xs.length = n)
    (hp : p + n ≤ arr.length) :
    (arr.take p ++ xs ++ arr.drop (p + n))[i]? =
      if i < p then arr[i]? else if i < p + n then xs[i - p]? else arr[i]? := by
  rw [List.append_assoc, List.getElem?_append, List.length_take, Nat.min_eq_left (by omega)]
  by_cases h₁ : i < p
  · rw [if_pos h₁, if_pos h₁, List.getElem?_take_of_lt h₁]
  · rw [if_neg h₁, if_neg h₁, List.getElem?_append, hn]
    by_cases h₂ : i - p < n
    · rw [if_pos h₂, if_pos (by omega)]
    · rw [if_neg h₂, if_neg (by omega), List.getElem?_drop]
      congr 1
      omega

/-- A write within a list keeps its length. -/
theorem length_splice {α : Type} (arr xs : List α) (p n : Nat) (hn : xs.length = n)
    (hp : p + n ≤ arr.length) : (arr.take p ++ xs ++ arr.drop (p + n)).length = arr.length := by
  simp only [List.length_append, List.length_take, List.length_drop, hn]
  omega

/-- A valid slice holds as many bytes as its length. -/
theorem Slice.bytes_length (mem : ByteMemory) (s : Slice) (h : s.Valid mem) :
    (s.bytes mem).length = s.len := by
  obtain ⟨h₁, h₂⟩ := h
  simp only [Slice.bytes, List.length_take, List.length_drop]
  omega

/-- A valid slice that is not empty has an allocated backing array. -/
theorem Slice.array_lt (mem : ByteMemory) (s : Slice) (h : s.Valid mem) (hpos : 0 < s.len) :
    s.array < mem.length := by
  obtain ⟨h₁, h₂⟩ := h
  by_contra hge
  rw [List.getD_eq_getElem?_getD, List.getElem?_eq_none (by omega)] at h₂
  simp at h₂
  omega

/-- The backing arrays after `append(s, x...)`. -/
theorem appendBytes_array (mem : ByteMemory) (s x : Slice) (a : Nat) (ha : a < mem.length) :
    (appendBytes mem s x).2.getD a [] =
      if s.len + x.len ≤ s.cap ∧ a = s.array then
        (mem.getD s.array []).take (s.off + s.len) ++ x.bytes mem ++
          (mem.getD s.array []).drop (s.off + s.len + x.len)
      else mem.getD a [] := by
  unfold appendBytes
  by_cases hroom : s.len + x.len ≤ s.cap
  · by_cases hsame : a = s.array
    · subst hsame
      simp [hroom, ha]
    · simp [hroom, hsame, List.getElem?_set_ne (Ne.symm hsame)]
  · simp [hroom, List.getElem?_append_left ha]

/-- The slice `append(s, x...)` returns holds the bytes of `s` followed by those
of `x`, as they were before the call. -/
theorem appendBytes_bytes (mem : ByteMemory) (s x : Slice) (hs : s.Valid mem)
    (hx : x.Valid mem) (hpos : 0 < s.len) :
    (appendBytes mem s x).1.bytes (appendBytes mem s x).2 = s.bytes mem ++ x.bytes mem := by
  have hlt := Slice.array_lt mem s hs hpos
  have hxl := Slice.bytes_length mem x hx
  have hsl := Slice.bytes_length mem s hs
  obtain ⟨hs₁, hs₂⟩ := hs
  by_cases hroom : s.len + x.len ≤ s.cap
  · have harr := appendBytes_array mem s x s.array hlt
    rw [if_pos ⟨hroom, rfl⟩] at harr
    have hfst : (appendBytes mem s x).1 = { s with len := s.len + x.len } := by
      simp [appendBytes, hroom]
    rw [hfst]
    unfold Slice.bytes at hsl ⊢
    simp only
    rw [harr]
    apply List.ext_getElem?
    intro i
    rw [getElem?_window, getElem?_splice _ _ _ _ _ hxl (by omega), List.getElem?_append, hsl,
      getElem?_window]
    by_cases h₁ : i < s.len
    · rw [if_pos (by omega), if_pos (by omega), if_pos h₁, if_pos h₁]
    · rw [if_neg h₁]
      by_cases h₂ : i < s.len + x.len
      · rw [if_pos h₂, if_neg (by omega), if_pos (by omega)]
        congr 1
        omega
      · rw [if_neg h₂, List.getElem?_eq_none]
        change (Slice.bytes mem x).length ≤ _
        omega
  · have hfst : (appendBytes mem s x).1 =
        { array := mem.length, off := 0, len := s.len + x.len, cap := s.len + x.len } := by
      simp [appendBytes, hroom]
    have hsnd : (appendBytes mem s x).2 = mem ++ [s.bytes mem ++ x.bytes mem] := by
      simp [appendBytes, hroom]
    rw [hfst, hsnd]
    have hlen : (s.bytes mem ++ x.bytes mem).length = s.len + x.len := by
      rw [List.length_append, hsl, hxl]
    simp only [Slice.bytes] at hlen ⊢
    simp [List.getD_eq_getElem?_getD, ← hlen]

/-- A slice that `append(s, x...)` does not write into holds the same bytes
after the call. -/
theorem appendBytes_preserves (mem : ByteMemory) (s x r : Slice) (hs : s.Valid mem)
    (hx : x.Valid mem) (hr : r.array < mem.length)
    (hfree : s.cap < s.len + x.len ∨ s.array ≠ r.array ∨ r.off + r.len ≤ s.off + s.len ∨
      s.off + s.len + x.len ≤ r.off) :
    r.bytes (appendBytes mem s x).2 = r.bytes mem := by
  have hxl := Slice.bytes_length mem x hx
  obtain ⟨hs₁, hs₂⟩ := hs
  unfold Slice.bytes
  rw [appendBytes_array mem s x r.array hr]
  by_cases hcond : s.len + x.len ≤ s.cap ∧ r.array = s.array
  · rw [if_pos hcond]
    obtain ⟨hroom, hsame⟩ := hcond
    rw [hsame]
    apply List.ext_getElem?
    intro i
    rw [getElem?_window, getElem?_window, getElem?_splice _ _ _ _ _ hxl (by omega)]
    by_cases hi : i < r.len
    · rw [if_pos hi, if_pos hi]
      rcases hfree with h | h | h | h
      · omega
      · exact absurd hsame.symm h
      · rw [if_pos (by omega)]
      · rw [if_neg (by omega), if_neg (by omega)]
    · rw [if_neg hi, if_neg hi]
  · rw [if_neg hcond]

/-- A slice within its array before `append(s, x...)` is within it after. -/
theorem appendBytes_valid (mem : ByteMemory) (s x r : Slice) (hs : s.Valid mem)
    (hx : x.Valid mem) (hr : r.Valid mem) (hlt : r.array < mem.length) :
    r.Valid (appendBytes mem s x).2 := by
  have hxl := Slice.bytes_length mem x hx
  obtain ⟨hs₁, hs₂⟩ := hs
  unfold Slice.Valid at hr ⊢
  rw [appendBytes_array mem s x r.array hlt]
  by_cases hcond : s.len + x.len ≤ s.cap ∧ r.array = s.array
  · rw [if_pos hcond, length_splice _ _ _ _ hxl (by omega), ← hcond.2]
    exact hr
  · rw [if_neg hcond]
    exact hr

theorem rangeLoopSlices_of_not_mem (l : List (String × StoredAuthInfo))
    (h : ∀ e, ("kind-korifi", e) ∉ l) :
    getPEMCertificate.rangeLoopSlices l = (Slice.nil, Slice.nil) := by
  induction l with
  | nil => rfl
  | cons p rest ih =>
    obtain ⟨username, authInfo⟩ := p
    have hne : username ≠ "kind-korifi" := fun heq => h authInfo (by simp [heq])
    have hrest : ∀ e, ("kind-korifi", e) ∉ rest := fun e he =>
      h e (List.mem_cons_of_mem _ he)
    simp [getPEMCertificate.rangeLoopSlices, hne, ih hrest]

theorem rangeLoopSlices_of_mem (l : List (String × StoredAuthInfo)) (e : StoredAuthInfo)
    (hnd : (l.map Prod.fst).Nodup) (h : ("kind-korifi", e) ∈ l) :
    getPEMCertificate.rangeLoopSlices l = (e.ClientCertificateData, e.ClientKeyData) := by
  induction l with
  | nil => simp at h
  | cons p rest ih =>
    obtain ⟨username, authInfo⟩ := p
    rw [List.map_cons, List.nodup_cons] at hnd
    by_cases hname : username = "kind-korifi"
    · rcases List.mem_cons.mp h with heq | hmem
      · have hinfo : e = authInfo := (Prod.mk.inj heq).2
        simp [getPEMCertificate.rangeLoopSlices, hname, hinfo]
      · exact absurd (List.mem_map.mpr ⟨("kind-korifi", e), hmem, hname.symm⟩) hnd.1
    · rcases List.mem_cons.mp h with heq | hmem
      · exact absurd (Prod.mk.inj heq).1.symm hname
      · simp [getPEMCertificate.rangeLoopSlices, hname, ih hnd.2 hmem]

theorem rangeLoopSlices_perm (l₁ l₂ : List (String × StoredAuthInfo))
    (hnd : (l₁.map Prod.fst).Nodup) (hp : l₁.Perm l₂) :
    getPEMCertificate.rangeLoopSlices l₁ = getPEMCertificate.rangeLoopSlices l₂ := by
  have hnd₂ : (l₂.map Prod.fst).Nodup := (hp.map Prod.fst).nodup_iff.mp hnd
  by_cases h : ∃ e, ("kind-korifi", e) ∈ l₁
  · obtain ⟨e, he⟩ := h
    rw [rangeLoopSlices_of_mem l₁ e hnd he, rangeLoopSlices_of_mem l₂ e hnd₂ (hp.mem_iff.mp he)]
  · have h₁ : ∀ e, ("kind-korifi", e) ∉ l₁ := fun e he => h ⟨e, he⟩
    have h₂ : ∀ e, ("kind-korifi", e) ∉ l₂ := fun e he => h ⟨e, hp.mem_iff.mpr he⟩
    rw [rangeLoopSlices_of_not_mem l₁ h₁, rangeLoopSlices_of_not_mem l₂ h₂]

/-- The loop leaves both slices nil or picks an entry under "kind-korifi". -/
theorem rangeLoopSlices_cases (l : List (String × StoredAuthInfo)) :
    getPEMCertificate.rangeLoopSlices l = (Slice.nil, Slice.nil) ∨
      ∃ e, ("kind-korifi", e) ∈ l ∧
        getPEMCertificate.rangeLoopSlices l = (e.ClientCertificateData, e.ClientKeyData) := by
  induction l with
  | nil => exact Or.inl rfl
  | cons p rest ih =>
    obtain ⟨username, authInfo⟩ := p
    by_cases hname : username = "kind-korifi"
    · exact Or.inr ⟨authInfo, by simp [hname], by simp [getPEMCertificate.rangeLoopSlices, hname]⟩
    · rcases ih with h | ⟨e, he, h⟩
      · exact Or.inl (by simp [getPEMCertificate.rangeLoopSlices, hname, h])
      · exact Or.inr ⟨e, List.mem_cons_of_mem _ he,
          by simp [getPEMCertificate.rangeLoopSlices, hname, h]⟩

/-- The loop on the bytes a configuration holds picks the bytes of the slices
the loop on the configuration picks. -/
theorem rangeLoop_load (mem : ByteMemory) (l : List (String × StoredAuthInfo)) :
    getPEMCertificate.rangeLoop (l.map fun p => (p.1, p.2.load mem)) =
      ((getPEMCertificate.rangeLoopSlices l).1.bytes mem,
        (getPEMCertificate.rangeLoopSlices l).2.bytes mem) := by
  induction l with
  | nil => simp [getPEMCertificate.rangeLoop, getPEMCertificate.rangeLoopSlices, Slice.bytes,
      Slice.nil]
  | cons p rest ih =>
    obtain ⟨username, authInfo⟩ := p
    by_cases hname : username = "kind-korifi"
    · simp [getPEMCertificate.rangeLoop, getPEMCertificate.rangeLoopSlices, hname,
        StoredAuthInfo.load]
    · simp only [List.map_cons, getPEMCertificate.rangeLoop,
        getPEMCertificate.rangeLoopSlices, beq_iff_eq, hname, if_false]
      exact ih

/-- One call on valid slices: the failure, or the token of the certificate bytes
followed by the key bytes, and the memory `append` leaves. -/
theorem run_eq (mem : ByteMemory) (config : StoredConfig) (dataCert keyCert : Slice)
    (hloop : getPEMCertificate.rangeLoopSlices config.AuthInfos = (dataCert, keyCert))
    (hc : dataCert.Valid mem) (hk : keyCert.Valid mem) :
    getPEMCertificate.run mem config =
      if dataCert.len = 0 ∨ keyCert.len = 0 then
        (.error (.errorString "could not find certificate data for kind-korifi"), mem)
      else
        (.ok (StdEncoding.EncodeToString (dataCert.bytes mem ++ keyCert.bytes mem)),
          (appendBytes mem dataCert keyCert).2) := by
  unfold getPEMCertificate.run
  rw [hloop]
  by_cases hlen : dataCert.len = 0 ∨ keyCert.len = 0
  · rw [if_pos hlen]
    rcases hlen with h | h <;> simp [h]
  · rw [if_neg hlen]
    have h₁ : dataCert.len ≠ 0 := fun h => hlen (Or.inl h)
    have h₂ : keyCert.len ≠ 0 := fun h => hlen (Or.inr h)
    have hb := appendBytes_bytes mem dataCert keyCert hc hk (Nat.pos_of_ne_zero h₁)
    simp [h₁, h₂, hb]

theorem Slice.nil_valid (mem : ByteMemory) : Slice.nil.Valid mem := by
  simp [Slice.Valid, Slice.nil]

/-- The value-level function gives the result of a call on memory. -/
theorem run_result (mem : ByteMemory) (config : StoredConfig)
    (hvalid : ∀ e, ("kind-korifi", e) ∈ config.AuthInfos →
      e.ClientCertificateData.Valid mem ∧ e.ClientKeyData.Valid mem) :
    (getPEMCertificate.run mem config).1 = getPEMCertificate (config.load mem) := by
  have hc : (getPEMCertificate.rangeLoopSlices config.AuthInfos).1.Valid mem ∧
      (getPEMCertificate.rangeLoopSlices config.AuthInfos).2.Valid mem := by
    rcases rangeLoopSlices_cases config.AuthInfos with h | ⟨e, he, h⟩
    · rw [h]; exact ⟨Slice.nil_valid mem, Slice.nil_valid mem⟩
    · rw [h]; exact hvalid e he
  rw [run_eq mem config _ _ rfl hc.1 hc.2]
  unfold getPEMCertificate StoredConfig.load
  rw [rangeLoop_load]
  simp only [Slice.bytes_length mem _ hc.1, Slice.bytes_length mem _ hc.2, beq_iff_eq,
    Bool.or_eq_true, decide_eq_true_eq]
  split <;> rfl

/-- Two calls in a row on valid slices, the first of which writes into no byte
of the key, give the same result. -/
theorem run_twice (mem : ByteMemory) (config : StoredConfig)
    (hstored : ∀ e, ("kind-korifi", e) ∈ config.AuthInfos →
      e.ClientCertificateData.Valid mem ∧ e.ClientKeyData.Valid mem ∧
        e.ClientCertificateData.appendSpares e.ClientKeyData) :
    (getPEMCertificate.run (getPEMCertificate.run mem config).2 config).1 =
      (getPEMCertificate.run mem config).1 := by
  rcases rangeLoopSlices_cases config.AuthInfos with h | ⟨e, he, h⟩
  · simp [getPEMCertificate.run, h, Slice.nil]
  · obtain ⟨hc, hk, hfree⟩ := hstored e he
    rw [run_eq mem config _ _ h hc hk]
    by_cases hlen : e.ClientCertificateData.len = 0 ∨ e.ClientKeyData.len = 0
    · rw [if_pos hlen]
      simp only
      rw [run_eq mem config _ _ h hc hk, if_pos hlen]
    · rw [if_neg hlen]
      simp only
      have h₁ : 0 < e.ClientCertificateData.len := Nat.pos_of_ne_zero fun h => hlen (Or.inl h)
      have h₂ : 0 < e.ClientKeyData.len := Nat.pos_of_ne_zero fun h => hlen (Or.inr h)
      have hcl := Slice.array_lt mem _ hc h₁
      have hkl := Slice.array_lt mem _ hk h₂
      rw [run_eq _ config _ _ h (appendBytes_valid mem _ _ _ hc hk hc hcl)
        (appendBytes_valid mem _ _ _ hc hk hk hkl), if_neg hlen]
      simp only
      rw [appendBytes_preserves mem _ _ _ hc hk hcl (Or.inr (Or.inr (Or.inl (Nat.le_refl _)))),
        appendBytes_preserves mem _ _ _ hc hk hkl hfree]

/-! ## The credential extractor -/

/-- C1: for every configuration whose auth entries (with distinct names) hold
an entry under "kind-korifi" with non-empty certificate bytes `C` and
non-empty key bytes `K`, `getPEMCertificate` succeeds and returns exactly the
standard padded base64 encoding, that of RFC 4648, of `C` followed by `K`. -/
theorem getPEMCertificate_token (config : Config) (C K : List Byte)
    (hwf : config.WellFormed)
    (hmem : ("kind-korifi", { ClientCertificateData := C, ClientKeyData := K }) ∈
      config.AuthInfos)
    (hC : C ≠ []) (hK : K ≠ []) :
    getPEMCertificate config = .ok (RFC4648.base64 (C ++ K)) := by
  unfold getPEMCertificate
  rw [rangeLoop_of_mem config.AuthInfos _ hwf hmem, ← EncodeToString_eq_base64]
  simp [hC, hK]

/-- The scenario of C1: certificate `[0x00]` and key `[0x04]` under
"kind-korifi" give the token "AAQ="; the certificate "cert" and the key
"key" give "Y2VydGtleQ==", the base64 of "certkey". -/
theorem getPEMCertificate_token_witness :
    getPEMCertificate ⟨[("kind-korifi", ⟨[0x00], [0x04]⟩)]⟩ = .ok "AAQ=" ∧
      getPEMCertificate
          ⟨[("kind-other", ⟨[1], [2]⟩), ("kind-korifi", ⟨[99, 101, 114, 116], [107, 101, 121]⟩)]⟩ =
        .ok "Y2VydGtleQ==" ∧
      RFC4648.base64 ([0x00] ++ [0x04]) = "AAQ=" :=
  ⟨(getPEMCertificate_token ⟨[("kind-korifi", ⟨[0x00], [0x04]⟩)]⟩ [0x00] [0x04]
      (by decide) (by decide) (by decide) (by decide)).trans (by decide),
    (getPEMCertificate_token
      ⟨[("kind-other", ⟨[1], [2]⟩), ("kind-korifi", ⟨[99, 101, 114, 116], [107, 101, 121]⟩)]⟩
      [99, 101, 114, 116] [107, 101, 121]
      (by decide) (by decide) (by decide) (by decide)).trans (by decide),
    by decide⟩

/-- C2: for every configuration with no auth entry under "kind-korifi", the
empty one included, `getPEMCertificate` returns no token and fails with the
error "could not find certificate data for kind-korifi". -/
theorem getPEMCertificate_not_found (config : Config)
    (h : ∀ a, ("kind-korifi", a) ∉ config.AuthInfos) :
    getPEMCertificate config = .error errCertificateData := by
  unfold getPEMCertificate
  rw [rangeLoop_of_not_mem config.AuthInfos h]
  rfl

/-- The scenario of C2: the empty collection. -/
theorem getPEMCertificate_not_found_witness :
    getPEMCertificate ⟨[]⟩ = .error errCertificateData :=
  getPEMCertificate_not_found ⟨[]⟩ (by simp)

/-- C3, as the code has it: for every configuration whose entry under
"kind-korifi" has an empty certificate or an empty key, `getPEMCertificate`
returns no token and fails, with the very error it returns when there is no
entry under that name. -/
theorem getPEMCertificate_incomplete (config : Config) (a : AuthInfo)
    (hwf : config.WellFormed) (hmem : ("kind-korifi", a) ∈ config.AuthInfos)
    (hempty : a.ClientCertificateData = [] ∨ a.ClientKeyData = []) :
    getPEMCertificate config = .error errCertificateData ∧
      getPEMCertificate config = getPEMCertificate ⟨[]⟩ := by
  have h : getPEMCertificate config = .error errCertificateData := by
    unfold getPEMCertificate
    rw [rangeLoop_of_mem config.AuthInfos a hwf hmem]
    rcases hempty with hC | hK
    · simp [hC, errCertificateData]
    · simp [hK, errCertificateData]
  exact ⟨h, h.trans (by decide)⟩

/-- An entry with an empty certificate, and one with an empty key. -/
theorem getPEMCertificate_incomplete_witness :
    getPEMCertificate ⟨[("kind-korifi", ⟨[], [0x04]⟩)]⟩ = .error errCertificateData ∧
      getPEMCertificate ⟨[("other", ⟨[1], [2]⟩), ("kind-korifi", ⟨[0x00], []⟩)]⟩ =
        getPEMCertificate ⟨[]⟩ :=
  ⟨(getPEMCertificate_incomplete ⟨[("kind-korifi", ⟨[], [0x04]⟩)]⟩ ⟨[], [0x04]⟩
      (by decide) (by decide) (by decide)).1,
    (getPEMCertificate_incomplete ⟨[("other", ⟨[1], [2]⟩), ("kind-korifi", ⟨[0x00], []⟩)]⟩
      ⟨[0x00], []⟩ (by decide) (by decide) (by decide)).2⟩

/-- C3 as stated fails: an entry under "kind-korifi" with an empty certificate
and no entry at all do not give two different errors. -/
theorem getPEMCertificate_incomplete_same_error :
    ¬ ∃ eIncomplete eNotFound : GoError, eIncomplete ≠ eNotFound ∧
      getPEMCertificate ⟨[("kind-korifi", ⟨[], [0x04]⟩)]⟩ = .error eIncomplete ∧
      getPEMCertificate ⟨[]⟩ = .error eNotFound := by
  rintro ⟨e₁, e₂, hne, h₁, h₂⟩
  have h₁' : getPEMCertificate ⟨[("kind-korifi", ⟨[], [0x04]⟩)]⟩ = .error errCertificateData := by
    decide
  have h₂' : getPEMCertificate ⟨[]⟩ = .error errCertificateData := by decide
  rw [h₁'] at h₁
  rw [h₂'] at h₂
  exact hne ((Except.error.inj h₁).symm.trans (Except.error.inj h₂))

/-- C7, as the code has it: on a configuration in memory with distinct names,
two enumerations of the collection give the identical result (the same token
or the same failure) and leave the same memory; and two calls in a row give
the identical result when the slices of the entry under "kind-korifi" lie
within their arrays and `append` writes into no byte of the key. -/
theorem getPEMCertificate_run_deterministic (mem : ByteMemory) (c₁ c₂ : StoredConfig)
    (hwf : c₁.WellFormed) (hperm : c₁.AuthInfos.Perm c₂.AuthInfos)
    (hstored : ∀ e, ("kind-korifi", e) ∈ c₁.AuthInfos →
      e.ClientCertificateData.Valid mem ∧ e.ClientKeyData.Valid mem ∧
        e.ClientCertificateData.appendSpares e.ClientKeyData) :
    getPEMCertificate.run mem c₁ = getPEMCertificate.run mem c₂ ∧
      (getPEMCertificate.run (getPEMCertificate.run mem c₁).2 c₁).1 =
        (getPEMCertificate.run mem c₁).1 ∧
      (getPEMCertificate.run (getPEMCertificate.run mem c₁).2 c₂).1 =
        (getPEMCertificate.run mem c₁).1 := by
  have hloop := rangeLoopSlices_perm c₁.AuthInfos c₂.AuthInfos hwf hperm
  have horder : ∀ m, getPEMCertificate.run m c₁ = getPEMCertificate.run m c₂ := by
    intro m
    unfold getPEMCertificate.run
    rw [hloop]
  have htwice := run_twice mem c₁ hstored
  refine ⟨horder mem, htwice, ?_⟩
  rw [← horder]
  exact htwice

/-- A certificate with spare capacity and a key in another array: both
enumerations and both calls give the token "AAQ=", and the first call has
written the key byte into the spare capacity of the certificate. -/
theorem getPEMCertificate_run_deterministic_witness :
    getPEMCertificate.run separateMemory separateConfig =
        getPEMCertificate.run separateMemory separateConfigReordered ∧
      (getPEMCertificate.run (getPEMCertificate.run separateMemory separateConfig).2
        separateConfig).1 = .ok "AAQ=" ∧
      getPEMCertificate.run separateMemory separateConfig = (.ok "AAQ=", [[0, 4, 9], [4]]) :=
  have h := getPEMCertificate_run_deterministic separateMemory separateConfig
    separateConfigReordered (by decide) (by decide)
    (fun e he => by
      have heq : e = separateEntry := by
        simpa [separateConfig] using he
      subst heq
      decide)
  ⟨h.1, h.2.1.trans (by decide), by decide⟩

/-- C7 as stated fails: with the key stored where `append` writes, in the spare
capacity of the certificate's array, two calls in a row on the same collection
give two different tokens. -/
theorem getPEMCertificate_run_twice_differs :
    sharedConfig.WellFormed ∧
      (∀ e, ("kind-korifi", e) ∈ sharedConfig.AuthInfos →
        e.ClientCertificateData.Valid sharedMemory ∧ e.ClientKeyData.Valid sharedMemory) ∧
      (getPEMCertificate.run sharedMemory sharedConfig).1 = .ok "AQICAw==" ∧
      (getPEMCertificate.run (getPEMCertificate.run sharedMemory sharedConfig).2
        sharedConfig).1 = .ok "AQICAg==" ∧
      (getPEMCertificate.run (getPEMCertificate.run sharedMemory sharedConfig).2
        sharedConfig).1 ≠ (getPEMCertificate.run sharedMemory sharedConfig).1 := by
  refine ⟨by decide, ?_, by decide, by decide, by decide⟩
  intro e he
  have : e = ⟨⟨0, 0, 2, 4⟩, ⟨0, 1, 2, 3⟩⟩ := by
    simpa [sharedConfig] using he
  subst this
  decide

/-! ## Lemmas on memory -/

theorem canonical_authorization : CanonicalMIMEHeaderKey "Authorization" = "Authorization" := by
  decide

theorem read_write_same (heap : Heap) (a : Addr) (h : Header) (ha : a < heap.length) :
    (heap.write a h).read a = h := by
  simp [Heap.read, Heap.write, List.getD_eq_getElem?_getD, ha]

theorem read_write_of_ne (heap : Heap) (a b : Addr) (h : Header) (hab : b ≠ a) :
    (heap.write a h).read b = heap.read b := by
  simp [Heap.read, Heap.write, List.getD_eq_getElem?_getD, List.getElem?_set_ne (Ne.symm hab)]

theorem read_append_of_lt (heap : Heap) (a : Addr) (h : Header) (ha : a < heap.length) :
    Heap.read (heap ++ [h]) a = heap.read a := by
  simp [Heap.read, List.getD_eq_getElem?_getD, List.getElem?_append_left ha]

/-- The request an authenticating round trip delegates, and the memory at
that moment: the clone at a fresh address, its `Authorization` set. -/
theorem RoundTrip_unfold {β : Type} [RoundTripper β] (t : authHeaderRoundTripper β)
    (req : Request) (w : World) :
    t.RoundTrip req w =
      World.roundTrip t.base { req with ctx := some req.Context, Header := w.heap.length }
        { w with heap := (Heap.write (w.heap ++ [w.heap.read req.Header]) w.heap.length
            ((Heap.read (w.heap ++ [w.heap.read req.Header]) w.heap.length).Set "Authorization"
              ("ClientCert " ++ t.certPEM))) } := by
  rfl

theorem read_clone (heap : Heap) (h : Header) :
    Heap.read (heap ++ [h]) heap.length = h := by
  simp [Heap.read, List.getD_eq_getElem?_getD]

/-! ## The authenticating transport -/

/-- C4: for every request and every authenticating transport holding the token
`certPEM`, the request handed to the inner transport has, under
`Authorization`, the single value "ClientCert " followed by the token,
whatever the original request had there. -/
theorem RoundTrip_sets_authorization {β : Type} [RoundTripper β]
    (t : authHeaderRoundTripper β) (req : Request) (w : World) :
    ∃ call : Call, (t.RoundTrip req w).2.calls = w.calls ++ [call] ∧
      call.heap.read call.req.Header "Authorization" = some ["ClientCert " ++ t.certPEM] := by
  refine ⟨_, by rw [RoundTrip_unfold]; rfl, ?_⟩
  show (Heap.write (w.heap ++ [w.heap.read req.Header]) w.heap.length _).read
    w.heap.length "Authorization" = _
  rw [read_write_same _ _ _ (by simp)]
  simp [Header.Set, canonical_authorization]

/-- C5, as the code has it: for every request whose header map is allocated,
the map is the same when the clone is handed to the inner transport, and,
the inner transport leaving every map allocated before its call other than
that of the request it is handed as it was, the same after the round trip
returns. -/
theorem RoundTrip_preserves_original {β : Type} [RoundTripper β]
    (t : authHeaderRoundTripper β) (req : Request) (w : World)
    (halloc : req.Header < w.heap.length) :
    (∃ call : Call, (t.RoundTrip req w).2.calls = w.calls ++ [call] ∧
      call.heap.read req.Header = w.heap.read req.Header) ∧
    (RoundTripper.KeepsOthers t.base →
      (t.RoundTrip req w).2.heap.read req.Header = w.heap.read req.Header) := by
  have hne : req.Header ≠ w.heap.length := Nat.ne_of_lt halloc
  have hcall : (Heap.write (w.heap ++ [w.heap.read req.Header]) w.heap.length
      ((Heap.read (w.heap ++ [w.heap.read req.Header]) w.heap.length).Set "Authorization"
        ("ClientCert " ++ t.certPEM))).read req.Header = w.heap.read req.Header := by
    rw [read_write_of_ne _ _ _ _ hne, read_append_of_lt _ _ _ halloc]
  refine ⟨⟨_, by rw [RoundTrip_unfold]; rfl, hcall⟩, ?_⟩
  intro hkeeps
  rw [RoundTrip_unfold]
  have hlt : req.Header < (Heap.write (w.heap ++ [w.heap.read req.Header]) w.heap.length
      ((Heap.read (w.heap ++ [w.heap.read req.Header]) w.heap.length).Set "Authorization"
        ("ClientCert " ++ t.certPEM))).length := by
    rw [Heap.write, List.length_set, List.length_append]
    exact Nat.lt_add_right _ halloc
  exact (hkeeps _ _ req.Header hlt hne).trans hcall

/-- The round trip of `sampleRequest` through a transport that wipes the
headers it is handed and allocates a map: the original header map is as it
was. -/
theorem RoundTrip_preserves_original_witness :
    ((authHeaderRoundTripper.RoundTrip
        ({ certPEM := "AAQ=", base := { answer := (none, none) } } :
          authHeaderRoundTripper wipingTransport)
        sampleRequest sampleWorld).2.heap.read sampleRequest.Header = sampleHeader) ∧
    sampleHeader "Authorization" = some ["Bearer stale", "Bearer older"] :=
  ⟨(RoundTrip_preserves_original
      ({ certPEM := "AAQ=", base := { answer := (none, none) } } :
        authHeaderRoundTripper wipingTransport)
      sampleRequest sampleWorld (by decide)).2
      (fun req heap a halloc ha =>
        (read_append_of_lt (Heap.write heap req.Header fun _ => none) a _
          (by simpa [Heap.write] using halloc)).trans
          (read_write_of_ne heap req.Header a _ ha)), by decide⟩

/-- C5 as stated fails: with an inner transport that holds a reference to
the header map of the original request and empties it, that map is not what
it was after the round trip returns. -/
theorem RoundTrip_original_changed :
    sampleRequest.Header < sampleWorld.heap.length ∧
      (authHeaderRoundTripper.RoundTrip
        ({ certPEM := "AAQ=", base := { target := 0 } } :
          authHeaderRoundTripper meddlingTransport)
        sampleRequest sampleWorld).2.heap.read sampleRequest.Header ≠
      sampleWorld.heap.read sampleRequest.Header := by
  refine ⟨by decide, fun h => ?_⟩
  have hAccept := congrFun h "Accept"
  revert hAccept
  decide

/-- C6: for every request and every inner transport, the round trip calls the
inner transport exactly once and returns exactly the pair it returned, so an
error of the inner transport is the error returned; the memory left is the
memory the inner transport left. -/
theorem RoundTrip_delegates_once {β : Type} [RoundTripper β]
    (t : authHeaderRoundTripper β) (req : Request) (w : World) :
    ∃ call : Call, (t.RoundTrip req w).2.calls = w.calls ++ [call] ∧
      (t.RoundTrip req w).1 = (RoundTripper.RoundTrip t.base call.req call.heap).1 ∧
      (t.RoundTrip req w).2.heap = (RoundTripper.RoundTrip t.base call.req call.heap).2 ∧
      ∀ err : GoError, (RoundTripper.RoundTrip t.base call.req call.heap).1.2 = some err →
        (t.RoundTrip req w).1.2 = some err := by
  refine ⟨_, by rw [RoundTrip_unfold]; rfl, ?_, ?_, ?_⟩
  · rw [RoundTrip_unfold]; rfl
  · rw [RoundTrip_unfold]; rfl
  · intro err herr
    rw [RoundTrip_unfold]
    exact herr

/-- C10: for every request, the request handed to the inner transport
differs from it in the `Authorization` header only: under every other key
the header map has the same values in the same order, or none where there
were none, and the method, URL, body and context are the same. -/
theorem RoundTrip_changes_only_authorization {β : Type} [RoundTripper β]
    (t : authHeaderRoundTripper β) (req : Request) (w : World) :
    ∃ call : Call, (t.RoundTrip req w).2.calls = w.calls ++ [call] ∧
      (∀ key : String, key ≠ "Authorization" →
        call.heap.read call.req.Header key = w.heap.read req.Header key) ∧
      call.req.Method = req.Method ∧ call.req.URL = req.URL ∧ call.req.Body = req.Body ∧
      call.req.Context = req.Context := by
  refine ⟨_, by rw [RoundTrip_unfold]; rfl, ?_, rfl, rfl, rfl, rfl⟩
  intro key hkey
  show (Heap.write (w.heap ++ [w.heap.read req.Header]) w.heap.length _).read
    w.heap.length key = _
  rw [read_write_same _ _ _ (by simp), read_clone]
  simp [Header.Set, canonical_authorization, hkey]

/-! ## The info endpoint -/

/-- C8: for every client whose GET of the info endpoint yields a response,
`GetInfo` issues that one GET and no other; with a status code other than 200
it returns no info value and an error, and with status 200 and a body that is
the JSON document of a name and a version it returns the `InfoV3Response` of
those two values and no error. -/
theorem GetInfo_status {σ : Type} (fold : String → String → Bool) (httpClient : HTTPClient σ)
    (w : Traffic σ) (resp : Response) (state : σ)
    (hget : httpClient.Get "https://localhost/v3/info" w.state = (.ok resp, state)) :
    (GetInfo fold httpClient w).2.events =
        w.events ++ [.get "https://localhost/v3/info", .closeBody] ∧
      (resp.StatusCode ≠ 200 →
        (GetInfo fold httpClient w).1 = .error (.errorString
          ("request failed with status " ++ toString resp.StatusCode ++ ": " ++ resp.Status))) ∧
      (∀ name version : String, resp.StatusCode = 200 →
        resp.Body = .ok (.object [("name", .string name), ("version", .string version)]) ∨
          resp.Body = .ok (.object [("version", .string version), ("name", .string name)]) →
        (GetInfo fold httpClient w).1 = .ok { Name := name, Version := version }) := by
  refine ⟨?_, ?_, ?_⟩
  · simp only [GetInfo, HTTPClient.callGet, hget]
    split
    · simp [Traffic.closeBody]
    · split <;> simp [Traffic.closeBody]
  · intro hstatus
    simp [GetInfo, HTTPClient.callGet, hget, hstatus]
  · intro name version hstatus hbody
    rcases hbody with hbody | hbody <;>
      simp [GetInfo, HTTPClient.callGet, hget, hstatus, hbody, Decode, unmarshalMembers,
        InfoField.ofKey, InfoV3Response.setField]

/-- A status 500 gives the error and one GET; a status 200 with a name and
a version gives both values. -/
theorem GetInfo_status_witness :
    (GetInfo (fun _ _ => false)
        (fixedClient { StatusCode := 500, Status := "500 Internal Server Error", Body := .ok .null })
        { state := (), events := [] }).1 =
      .error (.errorString "request failed with status 500: 500 Internal Server Error") ∧
    (GetInfo (fun _ _ => false)
        (fixedClient { StatusCode := 500, Status := "500 Internal Server Error", Body := .ok .null })
        { state := (), events := [] }).2.events =
      [.get "https://localhost/v3/info", .closeBody] ∧
    (GetInfo (fun _ _ => false)
        (fixedClient ⟨200, "200 OK",
          .ok (.object [("name", .string "korifi"), ("version", .string "v0.13.0")])⟩)
        { state := (), events := [] }).1 = .ok { Name := "korifi", Version := "v0.13.0" } :=
  ⟨((GetInfo_status (fun _ _ => false)
      (fixedClient { StatusCode := 500, Status := "500 Internal Server Error", Body := .ok .null })
      { state := (), events := [] } _ () rfl).2.1 (by decide)).trans (by decide),
    (GetInfo_status (fun _ _ => false)
      (fixedClient { StatusCode := 500, Status := "500 Internal Server Error", Body := .ok .null })
      { state := (), events := [] } _ () rfl).1,
    (GetInfo_status (fun _ _ => false)
      (fixedClient ⟨200, "200 OK",
        .ok (.object [("name", .string "korifi"), ("version", .string "v0.13.0")])⟩)
      { state := (), events := [] } _ () rfl).2.2 "korifi" "v0.13.0" rfl (Or.inl rfl)⟩

/-! ## Client assembly -/

/-- C9: `GetKorifiHttpClient` fails exactly when `getKubeConfig` fails or
`getPEMCertificate` fails on the loaded configuration, and then returns no
client and that step's error unchanged; otherwise it returns a client whose
transport is the authenticating transport holding exactly the token that
`getPEMCertificate` derived, over a transport with peer verification off. -/
theorem GetKorifiHttpClient_result (env : Env) :
    (∀ err : GoError, getKubeConfig env = .error err → GetKorifiHttpClient env = .error err) ∧
    (∀ (config : Config) (err : GoError), getKubeConfig env = .ok config →
      getPEMCertificate config = .error err → GetKorifiHttpClient env = .error err) ∧
    (∀ (config : Config) (certPEM : String), getKubeConfig env = .ok config →
      getPEMCertificate config = .ok certPEM →
      GetKorifiHttpClient env =
        .ok ⟨{ certPEM := certPEM, base := ⟨some { InsecureSkipVerify := true }⟩ }⟩) ∧
    ((∃ err : GoError, GetKorifiHttpClient env = .error err) ↔
      ((∃ err : GoError, getKubeConfig env = .error err) ∨
        ∃ (config : Config) (err : GoError), getKubeConfig env = .ok config ∧
          getPEMCertificate config = .error err)) := by
  refine ⟨?_, ?_, ?_, ?_⟩
  · intro err h
    simp [GetKorifiHttpClient, h]
  · intro config err h₁ h₂
    simp [GetKorifiHttpClient, h₁, h₂]
  · intro config certPEM h₁ h₂
    simp [GetKorifiHttpClient, h₁, h₂]
  · unfold GetKorifiHttpClient
    cases h₁ : getKubeConfig env with
    | error err => simp
    | ok config =>
      cases h₂ : getPEMCertificate config with
      | error err => simp [h₂]
      | ok certPEM => simp [h₂]

/-- A kubeconfig that fails to load, one without the identity, and one with
it. -/
theorem GetKorifiHttpClient_result_witness :
    GetKorifiHttpClient (fixedEnv (.error (.foreign "open /home/user/.kube/config: no such file"))) =
      .error (.errorString
        "error loading kubeconfig: open /home/user/.kube/config: no such file") ∧
    GetKorifiHttpClient (fixedEnv (.ok ⟨[]⟩)) = .error errCertificateData ∧
    GetKorifiHttpClient (fixedEnv (.ok ⟨[("kind-korifi", ⟨[0x00], [0x04]⟩)]⟩)) =
      .ok ⟨{ certPEM := "AAQ=", base := ⟨some { InsecureSkipVerify := true }⟩ }⟩ :=
  ⟨(GetKorifiHttpClient_result _).1 _ (by decide),
    (GetKorifiHttpClient_result _).2.1 ⟨[]⟩ _ (by decide) (by decide),
    (GetKorifiHttpClient_result _).2.2.1 ⟨[("kind-korifi", ⟨[0x00], [0x04]⟩)]⟩ "AAQ="
      (by decide) (by decide)⟩

end Korifi
